import Mathlib

/-!
# queryinloop: a Go analyzer for database calls inside loops

A shallow embedding of `code-snippets/phpstan-project-level-rules/go-custom-analyzer.go`:
the query-method table, the traversal callback of `run` with its loop-depth
counter, and the receiver heuristic `isDatabaseObject`, followed by theorems
about them.

The syntax tree (`go/ast`), the inspector (`go/ast/inspector`) and the string
functions (`strings`) belong to libraries the analyzer imports; they are
modelled here from their documented behaviour.
-/

namespace queryinloop

/-! ## Syntax trees (`go/ast`) -/

/-- An `*ast.Ident`: the position of the name and the name itself. -/
structure Ident where
  NamePos : Nat
  Name : String
deriving DecidableEq, Repr

/-- The `ast.Node` values the analyzer can meet. The five node types the
analyzer inspects have constructors of their own, with the fields of the Go
struct that carry child nodes; every other node type (block, if statement,
expression statement, index expression, literal, function literal, file, ...)
is `Other`, holding its position and its child nodes in the order `ast.Walk`
visits them. Optional children (`nil` in Go) are `none`. -/
inductive Node where
  | Ident (id : Ident)
  | SelectorExpr (X : Node) (Sel : Ident)
  | CallExpr (Fun : Node) (Args : List Node)
  | ForStmt (For : Nat) (Init Cond Post : Option Node) (Body : Node)
  | RangeStmt (For : Nat) (Key Value : Option Node) (X : Node) (Body : Node)
  | Other (pos : Nat) (children : List Node)
deriving Repr

/-- The method `Pos()` of a node: an identifier starts at its name, a selector
expression where its operand starts, a call where its callee starts, a loop at
its `for` keyword. -/
def Node.Pos : Node → Nat
  | .Ident id => id.NamePos
  | .SelectorExpr X _ => X.Pos
  | .CallExpr f _ => f.Pos
  | .ForStmt p _ _ _ _ => p
  | .RangeStmt p _ _ _ _ => p
  | .Other p _ => p

mutual
/-- The nodes of a tree in depth-first order, every node before its children,
the children in the order of `ast.Walk`. -/
def preorder : Node → List Node
  | .Ident id => [.Ident id]
  | .SelectorExpr X Sel => .SelectorExpr X Sel :: (preorder X ++ [.Ident Sel])
  | .CallExpr f args => .CallExpr f args :: (preorder f ++ preorderList args)
  | .ForStmt p i c po b =>
      .ForStmt p i c po b ::
        (preorderOpt i ++ (preorderOpt c ++ (preorderOpt po ++ preorder b)))
  | .RangeStmt p k v x b =>
      .RangeStmt p k v x b ::
        (preorderOpt k ++ (preorderOpt v ++ (preorder x ++ preorder b)))
  | .Other p cs => .Other p cs :: preorderList cs
/-- The nodes of a sequence of trees, tree after tree. -/
def preorderList : List Node → List Node
  | [] => []
  | n :: ns => preorder n ++ preorderList ns
/-- The nodes of an optional child. -/
def preorderOpt : Option Node → List Node
  | none => []
  | some n => preorder n
end

/-! ## Diagnostics and the analysis pass (`go/analysis`) -/

/-- What `pass.Reportf` hands to the host: a position and a message. -/
structure Diagnostic where
  Pos : Nat
  Message : String
deriving DecidableEq, Repr

/-- The part of `*analysis.Pass` the analyzer reads: the syntax trees of the
files of the package, which the inspector was built from. -/
structure Pass where
  Files : List Node

/-- The method `Preorder` of the inspector: it calls `f` once for every node
of the files whose type is in `types`, in depth-first order, each node before
its children. The callback is a closure over mutable variables; here it takes
the value `s` of those variables and returns their new value together with the
diagnostics it reported, and `Preorder` threads the value through the calls
and collects the reports in order. -/
def Preorder {σ : Type} (files : List Node) (types : Node → Bool)
    (f : σ → Node → σ × List Diagnostic) (s : σ) : σ × List Diagnostic :=
  ((preorderList files).filter types).foldl
    (fun acc n => ((f acc.1 n).1, acc.2 ++ (f acc.1 n).2)) (s, [])

/-! ## Strings (`strings`, `unicode`) -/

/-- Go's `unicode.ToLower` on one code point. ASCII capitals map to their
small letters and every other ASCII code point to itself. Code points from
U+0080 upward are mapped by the Unicode case tables, which are data of the Go
library; they are the parameter `tables`. -/
def unicodeToLower (tables : Char → Char) (c : Char) : Char :=
  if c.val < 128 then c.toLower else tables c

/-- Go's `strings.ToLower`: every code point mapped to lower case. -/
def ToLower (tables : Char → Char) (s : String) : String :=
  ⟨s.data.map (unicodeToLower tables)⟩

/-- Search for `substr` at the start of `s` or at the start of any of its
tails, on lists of code points. -/
def containsChars : List Char → List Char → Bool
  | [], substr => substr.isPrefixOf []
  | c :: cs, substr => substr.isPrefixOf (c :: cs) || containsChars cs substr

/-- Go's `strings.Contains`: whether `substr` occurs within `s`. -/
def Contains (s substr : String) : Bool :=
  containsChars s.data substr.data

/-! ## The analyzer -/

/-- The table `queryMethods`: common database method names to detect. -/
def queryMethodsTable : List (String × Bool) :=
  [("Query", true), ("QueryRow", true), ("Exec", true), ("Execute", true),
   ("Find", true), ("FindOne", true), ("Create", true), ("Update", true),
   ("Delete", true), ("Get", true), ("GetOne", true), ("Insert", true)]

/-- The index expression `queryMethods[m]` on the Go map: the stored value
for a key that is present, the zero value `false` for any other key. -/
def queryMethods (m : String) : Bool :=
  (queryMethodsTable.lookup m).getD false

/-- The slice `dbPatterns` of `isDatabaseObject`. -/
def dbPatterns : List String :=
  ["db", "database", "conn", "connection", "client", "session"]

/-- The function `isDatabaseObject`: whether an expression looks like a
database object, by the name of an identifier or by the member name of a
selector expression. -/
def isDatabaseObject (tables : Char → Char) (expr : Node) : Bool :=
  match expr with
  | .Ident e =>
      let name := ToLower tables e.Name
      dbPatterns.any fun pattern => Contains name pattern
  | .SelectorExpr _ Sel =>
      let name := ToLower tables Sel.Name
      dbPatterns.any fun pattern => Contains name pattern
  | _ => false

/-- The slice `nodeFilter` of `run`: for statements, range statements and
call expressions. -/
def nodeFilter : Node → Bool
  | .ForStmt _ _ _ _ _ => true
  | .RangeStmt _ _ _ _ _ => true
  | .CallExpr _ _ => true
  | _ => false

/-- The format string of the report with the method name in place of `%s`. -/
def reportMessage (methodName : String) : String :=
  "database query '" ++ methodName ++ "' detected inside a loop; " ++
    "this creates N+1 query problems and performance issues; " ++
    "refactor to batch queries using WHERE IN or similar patterns"

/-- The statements of the callback of `run`, from its first statement to the
point where it returns: given the value of `loopDepth` on entry and the node,
the value of `loopDepth` at the return, the diagnostics reported, and the
functions registered with `defer`, the most recent first. Go's `int` is
modelled by `Int`: in `run` the counter only takes the values 0 and 1. -/
def callbackBody (tables : Char → Char) (loopDepth : Int) (n : Node) :
    (Int × List Diagnostic) × List (Int → Int) :=
  match n with
  | .ForStmt _ _ _ _ _ => ((loopDepth + 1, []), [fun d => d - 1])
  | .RangeStmt _ _ _ _ _ => ((loopDepth + 1, []), [fun d => d - 1])
  | .CallExpr Fun _ =>
      if loopDepth == 0 then ((loopDepth, []), [])
      else
        match Fun with
        | .SelectorExpr X Sel =>
            let methodName := Sel.Name
            if !queryMethods methodName then ((loopDepth, []), [])
            else if isDatabaseObject tables X then
              ((loopDepth, [⟨n.Pos, reportMessage methodName⟩]), [])
            else ((loopDepth, []), [])
        | _ => ((loopDepth, []), [])
  | _ => ((loopDepth, []), [])

/-- One call of the callback of `run`: its statements, then, as the function
returns, the deferred functions. The decrement deferred in the loop case
therefore runs at the end of the call for the loop node itself. -/
def callback (tables : Char → Char) (loopDepth : Int) (n : Node) :
    Int × List Diagnostic :=
  let r := callbackBody tables loopDepth n
  (r.2.foldl (fun d g => g d) r.1.1, r.1.2)

/-- The function `run`: `loopDepth` starts at 0 and the callback is handed to
`Preorder` over the files of the pass. The Go function returns `nil, nil`; the
result here is what it leaves behind: the final value of `loopDepth` and the
diagnostics reported to the pass, in order. -/
def run (tables : Char → Char) (pass : Pass) : Int × List Diagnostic :=
  Preorder pass.Files nodeFilter (callback tables) 0

/-! ## The calls of the callback, one by one -/

/-- One call of the callback during the traversal: the node it was called
for, the value of `loopDepth` when the call began, and what it reported. -/
structure Visit where
  node : Node
  loopDepth : Int
  reported : List Diagnostic
deriving Repr

/-- The calls of the callback over a sequence of nodes, starting with the
given value of `loopDepth`. -/
def visitsFrom (tables : Char → Char) : Int → List Node → List Visit
  | _, [] => []
  | d, n :: ns =>
      ⟨n, d, (callback tables d n).2⟩ :: visitsFrom tables (callback tables d n).1 ns

/-- The calls of the callback that `run` causes, in order. -/
def visits (tables : Char → Char) (pass : Pass) : List Visit :=
  visitsFrom tables 0 ((preorderList pass.Files).filter nodeFilter)

/-! ## Loop nesting as a property of the tree -/

mutual
/-- The nodes of a tree in depth-first order, each with the number of loop
nodes (for or range statements) that are its proper ancestors, plus `d`. -/
def nesting (d : Nat) : Node → List (Node × Nat)
  | .Ident id => [(.Ident id, d)]
  | .SelectorExpr X Sel =>
      (.SelectorExpr X Sel, d) :: (nesting d X ++ [(.Ident Sel, d)])
  | .CallExpr f args => (.CallExpr f args, d) :: (nesting d f ++ nestingList d args)
  | .ForStmt p i c po b =>
      (.ForStmt p i c po b, d) ::
        (nestingOpt (d + 1) i ++ (nestingOpt (d + 1) c ++
          (nestingOpt (d + 1) po ++ nesting (d + 1) b)))
  | .RangeStmt p k v x b =>
      (.RangeStmt p k v x b, d) ::
        (nestingOpt (d + 1) k ++ (nestingOpt (d + 1) v ++
          (nesting (d + 1) x ++ nesting (d + 1) b)))
  | .Other p cs => (.Other p cs, d) :: nestingList d cs
/-- The same for a sequence of trees. -/
def nestingList (d : Nat) : List Node → List (Node × Nat)
  | [] => []
  | n :: ns => nesting d n ++ nestingList d ns
/-- The same for an optional child. -/
def nestingOpt (d : Nat) : Option Node → List (Node × Nat)
  | none => []
  | some n => nesting d n
end

/-- The nodes the callback is called for, in order, each with the number of
loops enclosing it in the files of the pass. -/
def sites (pass : Pass) : List (Node × Nat) :=
  (nestingList 0 pass.Files).filter fun p => nodeFilter p.1

/-! ## The counter inside one call -/

/-- The values `loopDepth` takes during one call of the callback, in order:
the value on entry, the value when the statements of the callback have run,
and the value after each deferred function. -/
def counterValues (tables : Char → Char) (loopDepth : Int) (n : Node) : List Int :=
  loopDepth ::
    List.scanl (fun d g => g d) (callbackBody tables loopDepth n).1.1
      (callbackBody tables loopDepth n).2

/-- The function `isDatabaseObject` with the slice `dbPatterns` replaced by
`patterns`, for comparing pattern sets; with `dbPatterns` itself it is
`isDatabaseObject`. -/
def isDatabaseObjectWith (patterns : List String) (tables : Char → Char) (expr : Node) :
    Bool :=
  match expr with
  | .Ident e =>
      let name := ToLower tables e.Name
      patterns.any fun pattern => Contains name pattern
  | .SelectorExpr _ Sel =>
      let name := ToLower tables Sel.Name
      patterns.any fun pattern => Contains name pattern
  | _ => false

/-! ## Example programs -/

/-- The file `package p; func f() { stmts }` around a list of statements. -/
def fileOf (stmts : List Node) : Node :=
  .Other 1 [.Ident ⟨9, "p"⟩,
    .Other 11 [.Ident ⟨16, "f"⟩, .Other 11 [.Other 17 []], .Other 20 stmts]]

/-- The call `db.Query(sql)` with `db` at position `p`. -/
def dbQueryCall (p : Nat) : Node :=
  .CallExpr (.SelectorExpr (.Ident ⟨p, "db"⟩) ⟨p + 3, "Query"⟩) [.Ident ⟨p + 9, "sql"⟩]

/-- The statement `for _, r := range rows { db.Query(sql) }`. -/
def rangeQuery : Node :=
  .RangeStmt 22 (some (.Ident ⟨26, "_"⟩)) (some (.Ident ⟨29, "r"⟩)) (.Ident ⟨40, "rows"⟩)
    (.Other 45 [.Other 47 [dbQueryCall 47]])

/-- The call `conn.Exec(q)` with `conn` at position `p`. -/
def connExecCall (p : Nat) : Node :=
  .CallExpr (.SelectorExpr (.Ident ⟨p, "conn"⟩) ⟨p + 5, "Exec"⟩) [.Ident ⟨p + 10, "q"⟩]

/-- The statement `for { for { conn.Exec(q) } }`. -/
def nestedExec : Node :=
  .ForStmt 22 none none none
    (.Other 26 [.ForStmt 28 none none none (.Other 32 [.Other 34 [connExecCall 34]])])

/-- The statement `if cond { db.Query(sql) }`. -/
def guardedQuery : Node :=
  .Other 22 [.Ident ⟨25, "cond"⟩, .Other 30 [.Other 32 [dbQueryCall 32]]]

/-- The call `r.Validate()` with `r` at position `p`. -/
def validateCall (p : Nat) : Node :=
  .CallExpr (.SelectorExpr (.Ident ⟨p, "r"⟩) ⟨p + 2, "Validate"⟩) []

/-- The statement `for _, r := range items { r.Validate() }`. -/
def rangeValidate : Node :=
  .RangeStmt 22 (some (.Ident ⟨26, "_"⟩)) (some (.Ident ⟨29, "r"⟩)) (.Ident ⟨40, "items"⟩)
    (.Other 46 [.Other 48 [validateCall 48]])

/-- The call `cache.Create(u)` with `cache` at position `p`. -/
def cacheCreateCall (p : Nat) : Node :=
  .CallExpr (.SelectorExpr (.Ident ⟨p, "cache"⟩) ⟨p + 6, "Create"⟩) [.Ident ⟨p + 13, "u"⟩]

/-- The statement `for _, u := range users { cache.Create(u) }`. -/
def rangeCacheCreate : Node :=
  .RangeStmt 22 (some (.Ident ⟨26, "_"⟩)) (some (.Ident ⟨29, "u"⟩)) (.Ident ⟨40, "users"⟩)
    (.Other 46 [.Other 48 [cacheCreateCall 48]])

/-- The statement `for { Query(x) }` with a plain function as callee. -/
def plainQueryLoop : Node :=
  .ForStmt 22 none none none
    (.Other 26 [.Other 28 [.CallExpr (.Ident ⟨28, "Query"⟩) [.Ident ⟨34, "x"⟩]]])

/-- The call `db.Query(db.Get(x))`, a call among the arguments of a call,
with the first `db` at position `p`. -/
def nestedCalls (p : Nat) : Node :=
  .CallExpr (.SelectorExpr (.Ident ⟨p, "db"⟩) ⟨p + 3, "Query"⟩)
    [.CallExpr (.SelectorExpr (.Ident ⟨p + 9, "db"⟩) ⟨p + 12, "Get"⟩) [.Ident ⟨p + 16, "x"⟩]]

/-- The statement `for { db.Query(db.Get(x)) }`. -/
def nestedCallsLoop : Node :=
  .ForStmt 22 none none none (.Other 26 [.Other 28 [nestedCalls 28]])

/-! ## Lemmas on the callback and the traversal -/

theorem callback_fst (tables : Char → Char) (d : Int) (n : Node) :
    (callback tables d n).1 = d := by
  cases n with
  | CallExpr f args =>
      simp only [callback, callbackBody]
      split
      · rfl
      · split
        · split
          · rfl
          · split <;> rfl
        · rfl
  | ForStmt _ _ _ _ _ => simp [callback, callbackBody]
  | RangeStmt _ _ _ _ _ => simp [callback, callbackBody]
  | Ident _ => rfl
  | SelectorExpr _ _ => rfl
  | Other _ _ => rfl

theorem callback_zero (tables : Char → Char) (n : Node) :
    callback tables 0 n = (0, []) := by
  cases n <;> simp [callback, callbackBody]

theorem foldl_callback_zero (tables : Char → Char) (ns : List Node)
    (acc : List Diagnostic) :
    ns.foldl (fun acc n => ((callback tables acc.1 n).1, acc.2 ++ (callback tables acc.1 n).2))
      ((0 : Int), acc) = (0, acc) := by
  induction ns with
  | nil => rfl
  | cons n ns ih => simp [List.foldl_cons, callback_zero, ih]

theorem run_eq (tables : Char → Char) (pass : Pass) : run tables pass = (0, []) := by
  simp [run, Preorder, foldl_callback_zero]

theorem visitsFrom_zero (tables : Char → Char) (ns : List Node) :
    visitsFrom tables 0 ns = ns.map fun n => ⟨n, 0, []⟩ := by
  induction ns with
  | nil => rfl
  | cons n ns ih => simp [visitsFrom, callback_zero, ih]

mutual
theorem nesting_map_fst (d : Nat) : ∀ n : Node, (nesting d n).map Prod.fst = preorder n
  | .Ident id => by simp [nesting, preorder]
  | .SelectorExpr X Sel => by simp [nesting, preorder, nesting_map_fst d X]
  | .CallExpr f args => by
      simp [nesting, preorder, nesting_map_fst d f, nestingList_map_fst d args]
  | .ForStmt p i c po b => by
      simp [nesting, preorder, nestingOpt_map_fst (d + 1) i, nestingOpt_map_fst (d + 1) c,
        nestingOpt_map_fst (d + 1) po, nesting_map_fst (d + 1) b]
  | .RangeStmt p k v x b => by
      simp [nesting, preorder, nestingOpt_map_fst (d + 1) k, nestingOpt_map_fst (d + 1) v,
        nesting_map_fst (d + 1) x, nesting_map_fst (d + 1) b]
  | .Other p cs => by simp [nesting, preorder, nestingList_map_fst d cs]
theorem nestingList_map_fst (d : Nat) :
    ∀ ns : List Node, (nestingList d ns).map Prod.fst = preorderList ns
  | [] => by simp [nestingList, preorderList]
  | n :: ns => by
      simp [nestingList, preorderList, nesting_map_fst d n, nestingList_map_fst d ns]
theorem nestingOpt_map_fst (d : Nat) :
    ∀ o : Option Node, (nestingOpt d o).map Prod.fst = preorderOpt o
  | none => by simp [nestingOpt, preorderOpt]
  | some n => by simp [nestingOpt, preorderOpt, nesting_map_fst d n]
end

theorem sites_map_fst (pass : Pass) :
    (sites pass).map Prod.fst = (preorderList pass.Files).filter nodeFilter := by
  unfold sites
  rw [← nestingList_map_fst 0 pass.Files, List.filter_map]
  rfl

theorem visits_eq (tables : Char → Char) (pass : Pass) :
    visits tables pass = (sites pass).map fun s => ⟨s.1, 0, []⟩ := by
  unfold visits
  rw [visitsFrom_zero, ← sites_map_fst, List.map_map]
  rfl

theorem visits_at (tables : Char → Char) (pass : Pass) (i : Nat) (n : Node) (d : Nat)
    (h : (sites pass)[i]? = some (n, d)) :
    (visits tables pass)[i]? = some ⟨n, 0, []⟩ := by
  rw [visits_eq, List.getElem?_map, h]
  rfl

theorem visitsFrom_eq (tables : Char → Char) (d : Int) (ns : List Node) :
    visitsFrom tables d ns = ns.map fun n => ⟨n, d, (callback tables d n).2⟩ := by
  induction ns with
  | nil => rfl
  | cons n ns ih => simp [visitsFrom, callback_fst, ih]

theorem foldl_callback_eq (tables : Char → Char) (ns : List Node) (d : Int)
    (acc : List Diagnostic) :
    ns.foldl (fun acc n => ((callback tables acc.1 n).1, acc.2 ++ (callback tables acc.1 n).2))
      (d, acc) = (d, acc ++ (visitsFrom tables d ns).flatMap fun v => v.reported) := by
  induction ns generalizing acc with
  | nil => simp [visitsFrom]
  | cons n ns ih =>
      have h := ih (acc ++ (callback tables d n).2)
      simp only [List.foldl_cons, callback_fst] at h ⊢
      rw [h]
      simp [visitsFrom, callback_fst]

/-- The diagnostics of `run` are the reports of the calls of the callback, in
order: `visits` takes `run` apart call by call. -/
theorem run_reports_eq (tables : Char → Char) (pass : Pass) :
    (run tables pass).2 = (visits tables pass).flatMap fun v => v.reported := by
  simp [run, Preorder, visits, foldl_callback_eq]

theorem mem_callback_iff (tables : Char → Char) (d : Int) (n : Node) (diag : Diagnostic) :
    diag ∈ (callback tables d n).2 ↔
      d ≠ 0 ∧ ∃ X Sel Args, n = .CallExpr (.SelectorExpr X Sel) Args ∧
        queryMethods Sel.Name = true ∧ isDatabaseObject tables X = true ∧
        diag = ⟨n.Pos, reportMessage Sel.Name⟩ := by
  cases n with
  | CallExpr f args =>
      by_cases hd : d = 0
      · simp [callback, callbackBody, hd]
      · cases f with
        | SelectorExpr X Sel =>
            by_cases hq : queryMethods Sel.Name = true
            · by_cases hx : isDatabaseObject tables X = true
              · simp only [callback, callbackBody, hd, hq, hx]
                simp only [beq_iff_eq, hd, if_false, Bool.not_true, Bool.false_eq_true,
                  if_true, List.foldl_nil, List.mem_singleton, ne_eq, not_false_eq_true,
                  true_and]
                constructor
                · intro h
                  exact ⟨X, Sel, args, rfl, hq, hx, h⟩
                · rintro ⟨X', Sel', args', he, -, -, h⟩
                  cases he
                  exact h
              · simp [callback, callbackBody, hd, hq, hx]
            · simp [callback, callbackBody, hd, hq]
        | Ident _ => simp [callback, callbackBody, hd]
        | CallExpr _ _ => simp [callback, callbackBody, hd]
        | ForStmt _ _ _ _ _ => simp [callback, callbackBody, hd]
        | RangeStmt _ _ _ _ _ => simp [callback, callbackBody, hd]
        | Other _ _ => simp [callback, callbackBody, hd]
  | ForStmt _ _ _ _ _ => simp [callback, callbackBody]
  | RangeStmt _ _ _ _ _ => simp [callback, callbackBody]
  | Ident _ => simp [callback, callbackBody]
  | SelectorExpr _ _ => simp [callback, callbackBody]
  | Other _ _ => simp [callback, callbackBody]

theorem lookup_getD_iff (t : List (String × Bool)) (h : ∀ p ∈ t, p.2 = true) (m : String) :
    (t.lookup m).getD false = true ↔ m ∈ t.map Prod.fst := by
  induction t with
  | nil => simp [List.lookup]
  | cons p t ih =>
      obtain ⟨k, b⟩ := p
      have hb : b = true := h (k, b) (List.mem_cons_self _ _)
      have ih' := ih fun q hq => h q (List.mem_cons_of_mem _ hq)
      by_cases hk : m = k
      · simp [List.lookup, hk, hb]
      · have hk' : (m == k) = false := by simpa using hk
        simp [List.lookup, hk', hk, ih']

theorem containsChars_iff (s substr : List Char) :
    containsChars s substr = true ↔ substr <:+: s := by
  induction s with
  | nil => simp [containsChars, List.isPrefixOf_iff_prefix]
  | cons c cs ih =>
      simp [containsChars, List.isPrefixOf_iff_prefix, List.infix_cons_iff, ih]

theorem any_pattern_iff (name : String) :
    (dbPatterns.any fun pattern => Contains name pattern) = true ↔
      ∃ pattern ∈ ["db", "database", "conn", "connection", "client", "session"],
        pattern.data <:+: name.data := by
  simp only [List.any_eq_true, Contains, containsChars_iff, dbPatterns]

/-! ## Loop tracking and reporting in `run` -/

/-- C1, evaluated on the code: in `for _, r := range rows { db.Query(sql) }`
the call `db.Query(sql)` has one enclosing loop, its method name is in the
table and its receiver passes `isDatabaseObject`, and in
`for { for { conn.Exec(q) } }` the call `conn.Exec(q)` has two enclosing loops
and qualifies likewise; for both programs `run` reports no diagnostic. -/
theorem qualifying_call_in_loop_unreported (tables : Char → Char) :
    ((sites ⟨[fileOf [rangeQuery]]⟩)[1]? = some (dbQueryCall 47, 1) ∧
      queryMethods "Query" = true ∧
      isDatabaseObject tables (.Ident ⟨47, "db"⟩) = true ∧
      (run tables ⟨[fileOf [rangeQuery]]⟩).2 = []) ∧
    ((sites ⟨[fileOf [nestedExec]]⟩)[2]? = some (connExecCall 34, 2) ∧
      queryMethods "Exec" = true ∧
      isDatabaseObject tables (.Ident ⟨34, "conn"⟩) = true ∧
      (run tables ⟨[fileOf [nestedExec]]⟩).2 = []) :=
  ⟨⟨rfl, rfl, rfl, rfl⟩, ⟨rfl, rfl, rfl, rfl⟩⟩

/-- C2, evaluated on the code: in `for { for { conn.Exec(q) } }` the inner
loop has one loop above it and the call two, while the value of `loopDepth`
at the moment the callback examines each of the three nodes is 0. -/
theorem loopDepth_zero_at_nested_call (tables : Char → Char) :
    (sites ⟨[fileOf [nestedExec]]⟩).map (fun s => (s.1.Pos, s.2)) =
        [(22, 0), (28, 1), (34, 2)] ∧
    (visits tables ⟨[fileOf [nestedExec]]⟩).map (fun v => (v.node.Pos, v.loopDepth)) =
        [(22, 0), (28, 0), (34, 0)] ∧
    (sites ⟨[fileOf [nestedExec]]⟩)[2]? = some (connExecCall 34, 2) ∧
    (visits tables ⟨[fileOf [nestedExec]]⟩)[2]? = some ⟨connExecCall 34, 0, []⟩ :=
  ⟨rfl, rfl, rfl, rfl⟩

/-- C3: a call expression that no loop encloses gets no diagnostic from
`run`, whatever its callee and arguments: the call of the callback for it
begins with `loopDepth` 0 and reports nothing, the callback reports nothing
for any call expression when `loopDepth` is 0, and for
`if cond { db.Query(sql) }` outside any loop `run` reports no diagnostic. -/
theorem call_outside_loop_unreported (tables : Char → Char) (pass : Pass) (i : Nat)
    (Fun : Node) (Args : List Node)
    (h : (sites pass)[i]? = some (.CallExpr Fun Args, 0)) :
    (visits tables pass)[i]? = some ⟨.CallExpr Fun Args, 0, []⟩ ∧
    (callback tables 0 (.CallExpr Fun Args)).2 = [] ∧
    (run tables ⟨[fileOf [guardedQuery]]⟩).2 = [] :=
  ⟨visits_at tables pass i _ 0 h, by simp [callback_zero], rfl⟩

theorem call_outside_loop_unreported_witness :
    (sites ⟨[fileOf [guardedQuery]]⟩)[0]? = some (dbQueryCall 32, 0) ∧
    (visits id ⟨[fileOf [guardedQuery]]⟩)[0]? = some ⟨dbQueryCall 32, 0, []⟩ ∧
    (callback id 0 (dbQueryCall 32)).2 = [] ∧
    (run id ⟨[fileOf [guardedQuery]]⟩).2 = [] :=
  ⟨rfl, call_outside_loop_unreported id ⟨[fileOf [guardedQuery]]⟩ 0 _ _ rfl⟩

/-- C4: in a traversal whose counter starts at any value that is not
negative (`run` starts it at 0), a call of the callback reports a diagnostic
exactly when `loopDepth` is above 0 there, the node is a call whose callee is
a selector expression with a member name in the table, and the receiver
passes `isDatabaseObject`; the diagnostic is then the one for that call.
Inside a loop (`loopDepth` 1) the callback reports nothing for `r.Validate()`
nor for `cache.Create(u)`, and `run` reports nothing for
`for _, r := range items { r.Validate() }` nor for
`for _, u := range users { cache.Create(u) }`. -/
theorem report_iff_gates_pass (tables : Char → Char) (d₀ : Int) (h₀ : 0 ≤ d₀)
    (ns : List Node) (v : Visit) (hv : v ∈ visitsFrom tables d₀ ns) (diag : Diagnostic) :
    (diag ∈ v.reported ↔
      0 < v.loopDepth ∧ ∃ X Sel Args, v.node = .CallExpr (.SelectorExpr X Sel) Args ∧
        queryMethods Sel.Name = true ∧ isDatabaseObject tables X = true ∧
        diag = ⟨v.node.Pos, reportMessage Sel.Name⟩) ∧
    (callback tables 1 (validateCall 48)).2 = [] ∧
    (callback tables 1 (cacheCreateCall 48)).2 = [] ∧
    (run tables ⟨[fileOf [rangeValidate]]⟩).2 = [] ∧
    (run tables ⟨[fileOf [rangeCacheCreate]]⟩).2 = [] := by
  refine ⟨?_, rfl, rfl, rfl, rfl⟩
  rw [visitsFrom_eq, List.mem_map] at hv
  obtain ⟨n, -, rfl⟩ := hv
  rw [mem_callback_iff]
  constructor
  · rintro ⟨hd, h⟩
    exact ⟨lt_of_le_of_ne h₀ (Ne.symm hd), h⟩
  · rintro ⟨hd, h⟩
    exact ⟨ne_of_gt hd, h⟩

theorem report_iff_gates_pass_witness :
    (0 : Int) ≤ 1 ∧
    (⟨dbQueryCall 47, 1, [⟨47, reportMessage "Query"⟩]⟩ : Visit) ∈
      visitsFrom id 1 [rangeQuery, dbQueryCall 47] ∧
    (((⟨47, reportMessage "Query"⟩ : Diagnostic) ∈ [(⟨47, reportMessage "Query"⟩ : Diagnostic)] ↔
      (0 : Int) < 1 ∧ ∃ X Sel Args, dbQueryCall 47 = .CallExpr (.SelectorExpr X Sel) Args ∧
        queryMethods Sel.Name = true ∧ isDatabaseObject id X = true ∧
        (⟨47, reportMessage "Query"⟩ : Diagnostic) = ⟨(dbQueryCall 47).Pos, reportMessage Sel.Name⟩) ∧
    (callback id 1 (validateCall 48)).2 = [] ∧
    (callback id 1 (cacheCreateCall 48)).2 = [] ∧
    (run id ⟨[fileOf [rangeValidate]]⟩).2 = [] ∧
    (run id ⟨[fileOf [rangeCacheCreate]]⟩).2 = []) :=
  have hv : (⟨dbQueryCall 47, 1, [⟨47, reportMessage "Query"⟩]⟩ : Visit) ∈
      visitsFrom id 1 [rangeQuery, dbQueryCall 47] := by
    simp [visitsFrom, rangeQuery, callback, callbackBody]
    rfl
  ⟨by decide, hv, report_iff_gates_pass id 1 (by decide) _ _ hv _⟩

/-! ## The method table and the receiver heuristic -/

/-- C5: `queryMethods[m]` is true exactly for the twelve names Query,
QueryRow, Exec, Execute, Find, FindOne, Create, Update, Delete, Get, GetOne
and Insert, compared as they are written; "query", "QUERY" and "QueryContext"
are rejected. -/
theorem queryMethods_iff (m : String) :
    (queryMethods m = true ↔
      m ∈ ["Query", "QueryRow", "Exec", "Execute", "Find", "FindOne", "Create", "Update",
        "Delete", "Get", "GetOne", "Insert"]) ∧
    queryMethods "query" = false ∧ queryMethods "QUERY" = false ∧
    queryMethods "QueryContext" = false := by
  refine ⟨?_, by decide, by decide, by decide⟩
  unfold queryMethods
  rw [lookup_getD_iff queryMethodsTable (by decide) m]
  rfl

/-- C6: for an identifier, `isDatabaseObject` is true exactly when the name
in lower case contains one of db, database, conn, connection, client, session;
"myDB" and "userClient" qualify, "widget" and "cache" do not. -/
theorem isDatabaseObject_ident_iff (tables : Char → Char) (e : Ident) :
    (isDatabaseObject tables (.Ident e) = true ↔
      ∃ pattern ∈ ["db", "database", "conn", "connection", "client", "session"],
        pattern.data <:+: (ToLower tables e.Name).data) ∧
    (∀ p, isDatabaseObject tables (.Ident ⟨p, "myDB"⟩) = true) ∧
    (∀ p, isDatabaseObject tables (.Ident ⟨p, "userClient"⟩) = true) ∧
    (∀ p, isDatabaseObject tables (.Ident ⟨p, "widget"⟩) = false) ∧
    (∀ p, isDatabaseObject tables (.Ident ⟨p, "cache"⟩) = false) :=
  ⟨any_pattern_iff _, fun _ => rfl, fun _ => rfl, fun _ => rfl, fun _ => rfl⟩

/-- C7: for a selector expression `X.sel`, `isDatabaseObject` is true exactly
when the member name in lower case contains one of the six patterns, whatever
the operand `X` is: `db.repo` does not qualify, and `X.db` qualifies for every
`X`, so `x.y.db` does. -/
theorem isDatabaseObject_selector_iff (tables : Char → Char) (X Y : Node) (Sel : Ident) :
    (isDatabaseObject tables (.SelectorExpr X Sel) = true ↔
      ∃ pattern ∈ ["db", "database", "conn", "connection", "client", "session"],
        pattern.data <:+: (ToLower tables Sel.Name).data) ∧
    isDatabaseObject tables (.SelectorExpr X Sel) = isDatabaseObject tables (.SelectorExpr Y Sel) ∧
    (∀ p q, isDatabaseObject tables (.SelectorExpr (.Ident ⟨p, "db"⟩) ⟨q, "repo"⟩) = false) ∧
    (∀ q, isDatabaseObject tables (.SelectorExpr X ⟨q, "db"⟩) = true) ∧
    (∀ p q r, isDatabaseObject tables
      (.SelectorExpr (.SelectorExpr (.Ident ⟨p, "x"⟩) ⟨q, "y"⟩) ⟨r, "db"⟩) = true) :=
  ⟨any_pattern_iff _, rfl, fun _ _ => rfl, fun _ => rfl, fun _ _ _ => rfl⟩

/-- C8: an expression that is neither an identifier nor a selector expression
never passes `isDatabaseObject`; the call `getDB()`, the index expression
`dbs[0]` and the parenthesised `(db)` are rejected although `db` occurs in
them. -/
theorem isDatabaseObject_other_shape (tables : Char → Char) (expr : Node)
    (hi : ∀ e, expr ≠ .Ident e) (hs : ∀ X Sel, expr ≠ .SelectorExpr X Sel) :
    isDatabaseObject tables expr = false ∧
    isDatabaseObject tables (.CallExpr (.Ident ⟨1, "getDB"⟩) []) = false ∧
    isDatabaseObject tables (.Other 1 [.Ident ⟨1, "dbs"⟩, .Other 5 []]) = false ∧
    isDatabaseObject tables (.Other 1 [.Ident ⟨2, "db"⟩]) = false := by
  refine ⟨?_, rfl, rfl, rfl⟩
  cases expr with
  | Ident e => exact absurd rfl (hi e)
  | SelectorExpr X Sel => exact absurd rfl (hs X Sel)
  | CallExpr _ _ => rfl
  | ForStmt _ _ _ _ _ => rfl
  | RangeStmt _ _ _ _ _ => rfl
  | Other _ _ => rfl

theorem isDatabaseObject_other_shape_witness :
    (∀ e, Node.CallExpr (.Ident ⟨1, "getDB"⟩) [] ≠ .Ident e) ∧
    (∀ X Sel, Node.CallExpr (.Ident ⟨1, "getDB"⟩) [] ≠ .SelectorExpr X Sel) ∧
    isDatabaseObject id (.CallExpr (.Ident ⟨1, "getDB"⟩) []) = false :=
  ⟨fun _ h => Node.noConfusion h, fun _ _ h => Node.noConfusion h,
    (isDatabaseObject_other_shape id (.CallExpr (.Ident ⟨1, "getDB"⟩) [])
      (fun _ h => Node.noConfusion h) (fun _ _ h => Node.noConfusion h)).1⟩

/-! ## Calls without a selector callee, and the counter after the traversal -/

/-- C9: a call whose callee is not a selector expression gets no diagnostic:
the callback reports nothing for it at any value of `loopDepth`, hence in a
traversal started with any counter value, that of `run` included; `run`
reports nothing for `for { Query(x) }`. -/
theorem call_without_selector_unreported (tables : Char → Char) (Fun : Node)
    (Args : List Node) (h : ∀ X Sel, Fun ≠ .SelectorExpr X Sel) :
    (∀ d : Int, (callback tables d (.CallExpr Fun Args)).2 = []) ∧
    (∀ (d₀ : Int) (ns : List Node), ∀ v ∈ visitsFrom tables d₀ ns,
      v.node = .CallExpr Fun Args → v.reported = []) ∧
    (∀ pass, ∀ v ∈ visits tables pass, v.node = .CallExpr Fun Args → v.reported = []) ∧
    (run tables ⟨[fileOf [plainQueryLoop]]⟩).2 = [] := by
  have hc : ∀ d : Int, (callback tables d (.CallExpr Fun Args)).2 = [] := by
    intro d
    apply List.eq_nil_iff_forall_not_mem.mpr
    intro diag hmem
    obtain ⟨-, X, Sel, Args', he, -⟩ := (mem_callback_iff tables d _ diag).mp hmem
    cases he
    exact h X Sel rfl
  have hv : ∀ (d₀ : Int) (ns : List Node), ∀ v ∈ visitsFrom tables d₀ ns,
      v.node = .CallExpr Fun Args → v.reported = [] := by
    intro d₀ ns v hmem hn
    rw [visitsFrom_eq, List.mem_map] at hmem
    obtain ⟨n, -, rfl⟩ := hmem
    simp only at hn
    subst hn
    exact hc d₀
  exact ⟨hc, hv, fun pass v hmem => hv 0 _ v hmem, rfl⟩

theorem call_without_selector_unreported_witness :
    (∀ X Sel, Node.Ident ⟨28, "Query"⟩ ≠ .SelectorExpr X Sel) ∧
    queryMethods "Query" = true ∧
    (callback id 2 (.CallExpr (.Ident ⟨28, "Query"⟩) [.Ident ⟨34, "x"⟩])).2 = [] :=
  ⟨fun _ _ h => Node.noConfusion h, by decide,
    (call_without_selector_unreported id (.Ident ⟨28, "Query"⟩) [.Ident ⟨34, "x"⟩]
      (fun _ _ h => Node.noConfusion h)).1 2⟩

/-- C10: when the traversal of `run` has completed, `loopDepth` is 0, for
every pass; more generally a traversal leaves the counter at the value it
started with. -/
theorem loopDepth_zero_after_run (tables : Char → Char) (pass : Pass) :
    (run tables pass).1 = 0 ∧
    ∀ d : Int, (Preorder pass.Files nodeFilter (callback tables) d).1 = d := by
  refine ⟨by rw [run_eq], fun d => ?_⟩
  simp [Preorder, foldl_callback_eq]

/-! ## The counter during the traversal -/

/-- C11: in the traversal of `run`, which starts the counter at 0, `loopDepth`
is never negative: it is at least 0 when a call of the callback begins, at
every step inside that call (after the increment and after the deferred
decrement), when the call has returned, and when the traversal is over. -/
theorem loopDepth_never_negative (tables : Char → Char) (pass : Pass) (v : Visit)
    (hv : v ∈ visits tables pass) :
    0 ≤ v.loopDepth ∧
    (∀ x ∈ counterValues tables v.loopDepth v.node, 0 ≤ x) ∧
    0 ≤ (callback tables v.loopDepth v.node).1 ∧
    0 ≤ (run tables pass).1 := by
  rw [visits_eq, List.mem_map] at hv
  obtain ⟨s, -, rfl⟩ := hv
  refine ⟨le_refl _, ?_, by simp [callback_fst], by simp [run_eq]⟩
  intro x hx
  cases hn : s.1 with
  | CallExpr f args =>
      simp only [hn, counterValues, callbackBody] at hx
      simp at hx
      omega
  | ForStmt _ _ _ _ _ =>
      simp [hn, counterValues, callbackBody] at hx
      omega
  | RangeStmt _ _ _ _ _ =>
      simp [hn, counterValues, callbackBody] at hx
      omega
  | Ident _ =>
      simp [hn, counterValues, callbackBody] at hx
      omega
  | SelectorExpr _ _ =>
      simp [hn, counterValues, callbackBody] at hx
      omega
  | Other _ _ =>
      simp [hn, counterValues, callbackBody] at hx
      omega

theorem loopDepth_never_negative_witness :
    (⟨nestedExec, 0, []⟩ : Visit) ∈ visits id ⟨[fileOf [nestedExec]]⟩ ∧
    counterValues id 0 nestedExec = [0, 1, 0] ∧
    ((0 : Int) ≤ 0 ∧
      (∀ x ∈ counterValues id 0 nestedExec, 0 ≤ x) ∧
      0 ≤ (callback id 0 nestedExec).1 ∧
      0 ≤ (run id ⟨[fileOf [nestedExec]]⟩).1) :=
  have hv : (⟨nestedExec, 0, []⟩ : Visit) ∈ visits id ⟨[fileOf [nestedExec]]⟩ :=
    List.mem_cons_self _ _
  ⟨hv, rfl, loopDepth_never_negative id ⟨[fileOf [nestedExec]]⟩ _ hv⟩

/-! ## The diagnostic, and the empty output of `run` -/

/-- C12: a diagnostic the callback reports for a node is for a call whose
callee is a selector expression; it carries the position `Pos()` of that call
and the fixed message with the member name of the callee in it. Two
diagnostics for calls with the same member name have the same message,
whatever the receivers, the arguments and the values of `loopDepth`. -/
theorem diagnostic_pos_and_message (tables : Char → Char) (d : Int) (n : Node)
    (diag : Diagnostic) (h : diag ∈ (callback tables d n).2) :
    (∃ X Sel Args, n = .CallExpr (.SelectorExpr X Sel) Args ∧
      diag.Pos = n.Pos ∧
      diag.Message =
        "database query '" ++ Sel.Name ++
          "' detected inside a loop; this creates N+1 query problems and performance issues; refactor to batch queries using WHERE IN or similar patterns") ∧
    (∀ (d' : Int) (X X' : Node) (Sel Sel' : Ident) (Args Args' : List Node) (diag' : Diagnostic),
      n = .CallExpr (.SelectorExpr X Sel) Args →
      diag' ∈ (callback tables d' (.CallExpr (.SelectorExpr X' Sel') Args')).2 →
      Sel.Name = Sel'.Name → diag.Message = diag'.Message) := by
  obtain ⟨-, X, Sel, Args, rfl, -, -, rfl⟩ := (mem_callback_iff tables d n diag).mp h
  refine ⟨⟨X, Sel, Args, rfl, rfl, ?_⟩, ?_⟩
  · simp only [reportMessage, String.append_assoc]
    rfl
  · intro d' Y X' S Sel' A Args' diag' hn h' hname
    obtain ⟨-, X'', Sel'', Args'', he, -, -, rfl⟩ := (mem_callback_iff tables d' _ diag').mp h'
    cases he
    cases hn
    simp only [hname]

theorem diagnostic_pos_and_message_witness :
    (⟨47, reportMessage "Query"⟩ : Diagnostic) ∈ (callback id 1 (dbQueryCall 47)).2 ∧
    (dbQueryCall 47).Pos = 47 ∧
    (∃ X Sel Args, dbQueryCall 47 = .CallExpr (.SelectorExpr X Sel) Args ∧
      (⟨47, reportMessage "Query"⟩ : Diagnostic).Pos = (dbQueryCall 47).Pos ∧
      (⟨47, reportMessage "Query"⟩ : Diagnostic).Message =
        "database query '" ++ Sel.Name ++
          "' detected inside a loop; this creates N+1 query problems and performance issues; refactor to batch queries using WHERE IN or similar patterns") :=
  have h : (⟨47, reportMessage "Query"⟩ : Diagnostic) ∈ (callback id 1 (dbQueryCall 47)).2 :=
    List.mem_cons_self _ _
  ⟨h, rfl, (diagnostic_pos_and_message id 1 (dbQueryCall 47) _ h).1⟩

/-- C14: the callback for a loop node raises `loopDepth` by one and the
deferred function lowers it again before that same call returns; hence in the
traversal of `run` every call of the callback begins with `loopDepth` 0, for
a call expression it leaves at the test `loopDepth == 0` with nothing
reported, and `run` reports no diagnostic, for every pass. -/
theorem run_reports_nothing (tables : Char → Char) (pass : Pass) :
    (∀ (d : Int) p i c po b,
      (callbackBody tables d (.ForStmt p i c po b)).1.1 = d + 1 ∧
      (callback tables d (.ForStmt p i c po b)).1 = d) ∧
    (∀ (d : Int) p k v x b,
      (callbackBody tables d (.RangeStmt p k v x b)).1.1 = d + 1 ∧
      (callback tables d (.RangeStmt p k v x b)).1 = d) ∧
    (∀ v ∈ visits tables pass, v.loopDepth = 0 ∧ v.reported = []) ∧
    (∀ Fun Args, callbackBody tables 0 (.CallExpr Fun Args) = ((0, []), [])) ∧
    (run tables pass).2 = [] := by
  refine ⟨fun d p i c po b => ⟨rfl, callback_fst _ _ _⟩,
    fun d p k v x b => ⟨rfl, callback_fst _ _ _⟩, ?_, fun _ _ => rfl, by rw [run_eq]⟩
  intro v hv
  rw [visits_eq, List.mem_map] at hv
  obtain ⟨s, -, rfl⟩ := hv
  exact ⟨rfl, rfl⟩

/-! ## The order of the reports -/

theorem flatMap_split {α β : Type} (f : α → List β) (l : List α) (i j : Nat) (x y : α)
    (b₁ b₂ : β) (hij : i < j) (hi : l[i]? = some x) (hj : l[j]? = some y)
    (h₁ : b₁ ∈ f x) (h₂ : b₂ ∈ f y) :
    ∃ a b c, l.flatMap f = a ++ b₁ :: (b ++ b₂ :: c) := by
  induction l generalizing i j with
  | nil => simp at hi
  | cons h t ih =>
      obtain ⟨j', rfl⟩ : ∃ j', j = j' + 1 := ⟨j - 1, by omega⟩
      rw [List.getElem?_cons_succ] at hj
      cases i with
      | zero =>
          rw [List.getElem?_cons_zero] at hi
          cases hi
          obtain ⟨u, w, hu⟩ := List.append_of_mem h₁
          have hmem : b₂ ∈ t.flatMap f := List.mem_flatMap_of_mem (List.getElem?_mem hj) h₂
          obtain ⟨s, c, hs⟩ := List.append_of_mem hmem
          exact ⟨u, w ++ s, c, by simp [List.flatMap_cons, hu, hs]⟩
      | succ i' =>
          rw [List.getElem?_cons_succ] at hi
          obtain ⟨a, b, c, habc⟩ := ih i' j' (by omega) hi hj
          exact ⟨f h ++ a, b, c, by simp [List.flatMap_cons, habc]⟩

/-- C15: the diagnostics come out in the order of discovery. In a traversal
started with any counter value, if the call of the callback for one node comes
before the call for another (the calls are made in pre-order) and both report,
the report of the first stands before the report of the second in the output;
the output of `run` is the reports of its calls of the callback, in order. For
`for { db.Query(db.Get(x)) }`, traversed with the counter at 1, the diagnostic
of the outer call comes first. -/
theorem reports_in_discovery_order (tables : Char → Char) (d₀ : Int) (files : List Node)
    (i j : Nat) (vi vj : Visit) (di dj : Diagnostic) (hij : i < j)
    (hi : (visitsFrom tables d₀ ((preorderList files).filter nodeFilter))[i]? = some vi)
    (hj : (visitsFrom tables d₀ ((preorderList files).filter nodeFilter))[j]? = some vj)
    (hdi : di ∈ vi.reported) (hdj : dj ∈ vj.reported) :
    (∃ a b c,
      (Preorder files nodeFilter (callback tables) d₀).2 = a ++ di :: (b ++ dj :: c)) ∧
    (visitsFrom tables d₀ ((preorderList files).filter nodeFilter)).map (fun v => v.node) =
      (preorderList files).filter nodeFilter ∧
    (∀ pass, (run tables pass).2 = (visits tables pass).flatMap fun v => v.reported) ∧
    (Preorder [fileOf [nestedCallsLoop]] nodeFilter (callback tables) 1).2 =
      [⟨28, reportMessage "Query"⟩, ⟨37, reportMessage "Get"⟩] := by
  refine ⟨?_, ?_, run_reports_eq tables, rfl⟩
  · have hout : (Preorder files nodeFilter (callback tables) d₀).2 =
        (visitsFrom tables d₀ ((preorderList files).filter nodeFilter)).flatMap
          fun v => v.reported := by
      simp [Preorder, foldl_callback_eq]
    rw [hout]
    exact flatMap_split _ _ i j vi vj di dj hij hi hj hdi hdj
  · rw [visitsFrom_eq, List.map_map]
    exact List.map_id _

theorem reports_in_discovery_order_witness :
    (visitsFrom id 1 ((preorderList [fileOf [nestedCallsLoop]]).filter nodeFilter))[1]? =
      some ⟨nestedCalls 28, 1, [⟨28, reportMessage "Query"⟩]⟩ ∧
    (visitsFrom id 1 ((preorderList [fileOf [nestedCallsLoop]]).filter nodeFilter))[2]? =
      some ⟨.CallExpr (.SelectorExpr (.Ident ⟨37, "db"⟩) ⟨40, "Get"⟩) [.Ident ⟨44, "x"⟩], 1,
        [⟨37, reportMessage "Get"⟩]⟩ ∧
    ∃ a b c,
      (Preorder [fileOf [nestedCallsLoop]] nodeFilter (callback id) 1).2 =
        a ++ (⟨28, reportMessage "Query"⟩ : Diagnostic) ::
          (b ++ (⟨37, reportMessage "Get"⟩ : Diagnostic) :: c) :=
  ⟨rfl, rfl,
    (reports_in_discovery_order id 1 [fileOf [nestedCallsLoop]] 1 2
      ⟨nestedCalls 28, 1, [⟨28, reportMessage "Query"⟩]⟩
      ⟨.CallExpr (.SelectorExpr (.Ident ⟨37, "db"⟩) ⟨40, "Get"⟩) [.Ident ⟨44, "x"⟩], 1,
        [⟨37, reportMessage "Get"⟩]⟩
      ⟨28, reportMessage "Query"⟩ ⟨37, reportMessage "Get"⟩ (by decide) rfl rfl
      (List.mem_cons_self _ _) (List.mem_cons_self _ _)).1⟩

/-! ## The receiver patterns -/

theorem isDatabaseObject_ident_extend (tables : Char → Char) (e e' : Ident)
    (h : isDatabaseObject tables (.Ident e) = true) (hsub : e.Name.data <:+: e'.Name.data) :
    isDatabaseObject tables (.Ident e') = true := by
  simp only [isDatabaseObject] at h ⊢
  rw [any_pattern_iff] at h ⊢
  obtain ⟨pattern, hp, hin⟩ := h
  exact ⟨pattern, hp, hin.trans (List.IsInfix.map (unicodeToLower tables) hsub)⟩

/-- C16: if `isDatabaseObject` accepts the identifier `n` and `n` occurs
within `n'`, it accepts the identifier `n'`; hence every name in which one of
the six patterns occurs is accepted, such as "feedback" (with "db" in it) and
"reconnect" (with "conn" in it). -/
theorem isDatabaseObject_monotone (tables : Char → Char) (e e' : Ident)
    (h : isDatabaseObject tables (.Ident e) = true) (hsub : e.Name.data <:+: e'.Name.data) :
    isDatabaseObject tables (.Ident e') = true ∧
    (∀ (p : Nat) (name : String),
      (∃ pattern ∈ ["db", "database", "conn", "connection", "client", "session"],
        pattern.data <:+: name.data) → isDatabaseObject tables (.Ident ⟨p, name⟩) = true) ∧
    (∀ p, isDatabaseObject tables (.Ident ⟨p, "feedback"⟩) = true) ∧
    (∀ p, isDatabaseObject tables (.Ident ⟨p, "reconnect"⟩) = true) := by
  refine ⟨isDatabaseObject_ident_extend tables e e' h hsub, ?_, fun _ => rfl, fun _ => rfl⟩
  rintro p name ⟨pattern, hp, hin⟩
  have hacc : isDatabaseObject tables (.Ident ⟨0, pattern⟩) = true := by
    simp only [List.mem_cons, List.mem_singleton, List.not_mem_nil, or_false] at hp
    rcases hp with rfl | rfl | rfl | rfl | rfl | rfl <;> rfl
  exact isDatabaseObject_ident_extend tables ⟨0, pattern⟩ ⟨p, name⟩ hacc hin

theorem isDatabaseObject_monotone_witness :
    isDatabaseObject id (.Ident ⟨1, "db"⟩) = true ∧
    "db".data <:+: "feedback".data ∧
    isDatabaseObject id (.Ident ⟨1, "feedback"⟩) = true :=
  have hsub : "db".data <:+: "feedback".data := ⟨"fee".data, "ack".data, rfl⟩
  ⟨rfl, hsub, (isDatabaseObject_monotone id ⟨1, "db"⟩ ⟨1, "feedback"⟩ rfl hsub).1⟩

theorem contains_conn_of_connection (name : String)
    (h : Contains name "connection" = true) : Contains name "conn" = true := by
  simp only [Contains, containsChars_iff] at h ⊢
  exact List.IsInfix.trans ⟨[], "ection".data, rfl⟩ h

theorem any_without_connection (name : String) :
    (["db", "database", "conn", "client", "session"].any fun pattern => Contains name pattern) =
      dbPatterns.any fun pattern => Contains name pattern := by
  have h := contains_conn_of_connection name
  simp only [dbPatterns, List.any_cons, List.any_nil]
  cases h₃ : Contains name "conn" <;> cases h₄ : Contains name "connection" <;> simp_all

/-- C17: the pattern "connection" is redundant: with the five patterns db,
database, conn, client, session the heuristic gives, for every expression, the
result `isDatabaseObject` gives with its six, since "conn" occurs in
"connection". The pattern "database" is not redundant: "db" does not occur in
"database", and with "database" taken out of the six the identifier `database`
is rejected, while `isDatabaseObject` accepts it. -/
theorem connection_pattern_redundant (tables : Char → Char) (expr : Node) :
    isDatabaseObjectWith ["db", "database", "conn", "client", "session"] tables expr =
      isDatabaseObject tables expr ∧
    isDatabaseObjectWith ["db", "database", "conn", "connection", "client", "session"]
      tables expr = isDatabaseObject tables expr ∧
    Contains "connection" "conn" = true ∧
    Contains "database" "db" = false ∧
    (∀ p, isDatabaseObject tables (.Ident ⟨p, "database"⟩) = true) ∧
    (∀ p, isDatabaseObjectWith ["db", "conn", "connection", "client", "session"] tables
      (.Ident ⟨p, "database"⟩) = false) := by
  refine ⟨?_, ?_, by decide, by decide, fun _ => rfl, fun _ => rfl⟩
  · cases expr with
    | Ident e => exact any_without_connection _
    | SelectorExpr X Sel => exact any_without_connection _
    | CallExpr _ _ => rfl
    | ForStmt _ _ _ _ _ => rfl
    | RangeStmt _ _ _ _ _ => rfl
    | Other _ _ => rfl
  · cases expr <;> rfl

end queryinloop
